import Mathlib

/-!
Verification of the weighted crosstab builder from the Pew National Latino
Surveys notebook.

The notebook defines a single nontrivial routine:

  def quick_crosstab(df, meta, x, y, weights):
      crosstab = pd.crosstab(
          df[x].map(meta.variable_value_labels[x]),
          df[y].map(meta.variable_value_labels[y]),
          weights, aggfunc=sum, dropna=True, normalize="columns"
          ).loc[meta.variable_value_labels[x].values()] \
           .loc[:, meta.variable_value_labels[y].values()] * 100
      return crosstab

We embed the routine over an explicit table model: a table is a list of
rows (association lists from column name to raw value), the label metadata
maps a column name to an ordered association list from raw code to display
label (the insertion order of a Python dict, whose values() gives the
canonical label sequence), and the weight vector is a list of rationals.

Pandas semantics captured by the embedding:
- a missing key in meta.variable_value_labels raises KeyError before
  anything else (the arguments of pd.crosstab are evaluated first);
- Series.map sends a raw code with no dictionary entry to NaN, and
  pd.crosstab drops every row whose mapped x or mapped y is NaN;
- passing a values sequence whose length differs from the length of the
  frame raises ValueError (assignment of the values column);
- with aggfunc=sum, a (row label, column label) pair with no contributing
  row yields a NaN cell; normalize="columns" divides each cell by the
  column sum taken over the non-NaN cells, so a column of total weight 0
  turns into 0/0 = NaN cells (or signed infinities if a nonzero cell is
  divided by a zero column total, impossible for nonnegative weights);
- .loc with a list of labels raises KeyError if any requested label is
  absent from the axis, and otherwise selects in the requested order.

Floating point is modelled by rationals plus explicit NaN and infinity
constructors; all arithmetic performed by the routine is exact in floats
up to rounding, and the claims speak up to rounding.
-/

namespace PewCrosstab

/-- A raw value stored in a table cell: a numeric survey code or a string
code. -/
inductive Val where
  | num : ℚ → Val
  | str : String → Val
deriving DecidableEq, Repr

/-- A row of the data frame: an association list from column name to raw
value; a column name absent from the row stands for a missing (NaN) entry. -/
abbrev Row := List (String × Val)

/-- The data frame: an ordered list of rows. -/
abbrev Table := List Row

/-- The value-label dictionary of one column, in insertion order: raw code
paired with display label.  Its second components, in order, are the
canonical label sequence (dict.values() in the source). -/
abbrev LabelMap := List (Val × String)

/-- meta.variable_value_labels: column name to value-label dictionary. -/
abbrev Meta := List (String × LabelMap)

/-- Raw value of column c in row r; none models a missing entry (NaN). -/
def rowLookup (r : Row) (c : String) : Option Val :=
  (r.find? (fun p => decide (p.1 = c))).map (fun p => p.2)

/-- Series.map through a value-label dictionary: an unmapped or missing
code becomes NaN (none). -/
def mapCode (lm : LabelMap) (v : Option Val) : Option String :=
  v.bind (fun u => (lm.find? (fun p => decide (p.1 = u))).map (fun p => p.2))

/-- Dictionary lookup meta.variable_value_labels[c]; none will be raised
as a KeyError by the caller. -/
def lookupMeta (meta : Meta) (c : String) : Option LabelMap :=
  (meta.find? (fun p => decide (p.1 = c))).map (fun p => p.2)

/-- The rows that survive label mapping on both axes, as triples
(x label, y label, weight): pd.crosstab drops every row whose mapped x or
mapped y is NaN.  Rows are paired with their weights positionally. -/
def mappedRows (df : Table) (lmx lmy : LabelMap) (x y : String)
    (weights : List ℚ) : List (String × String × ℚ) :=
  (df.zip weights).filterMap (fun rw =>
    match mapCode lmx (rowLookup rw.1 x), mapCode lmy (rowLookup rw.1 y) with
    | some lx, some ly => some (lx, ly, rw.2)
    | _, _ => none)

/-- The weights of the mapped rows falling into cell (lx, ly). -/
def cellWeights (mr : List (String × String × ℚ)) (lx ly : String) : List ℚ :=
  mr.filterMap (fun p =>
    if p.1 = lx ∧ p.2.1 = ly then some p.2.2 else none)

/-- The weights of all mapped rows whose column factor is ly. -/
def colWeights (mr : List (String × String × ℚ)) (ly : String) : List ℚ :=
  mr.filterMap (fun p => if p.2.1 = ly then some p.2.2 else none)

/-- Total aggregate weight of column ly: the sum pandas divides by when
normalizing by columns (NaN cells are skipped by the column sum, which is
why this is a sum over contributing rows only). -/
def colWeight (mr : List (String × String × ℚ)) (ly : String) : ℚ :=
  (colWeights mr ly).sum

/-- A float value of the output matrix: NaN, a signed infinity, or a
finite rational. -/
inductive FVal where
  | nan : FVal
  | inft : Bool → FVal
  | val : ℚ → FVal
deriving DecidableEq, Repr

/-- The final value of cell (lx, ly): NaN when no mapped row falls into
the cell (aggfunc leaves the pair empty); otherwise the weight sum of the
cell divided by the column total and scaled by 100, with 0/0 = NaN and
s/0 = signed infinity exactly as in floating division. -/
def cellValue (mr : List (String × String × ℚ)) (lx ly : String) : FVal :=
  if (cellWeights mr lx ly).isEmpty then .nan
  else if colWeight mr ly = 0 then
    (if (cellWeights mr lx ly).sum = 0 then .nan
     else .inft (decide (0 < (cellWeights mr lx ly).sum)))
  else .val (100 * (cellWeights mr lx ly).sum / colWeight mr ly)

/-- The contingency table returned by the routine: row labels, column
labels, and the cell matrix in row-major order. -/
structure Crosstab where
  rowLabels : List String
  colLabels : List String
  cells : List (List FVal)
deriving DecidableEq, Repr

/-- The exceptions the routine can raise. -/
inductive CtErr where
  | keyErrorMeta : String → CtErr
  | valueError : CtErr
  | keyErrorRow : CtErr
  | keyErrorCol : CtErr
deriving DecidableEq, Repr

/-- The contingency table produced on the success path: the normalized
matrix with rows selected in the canonical label order of x by the first
.loc and columns selected in the canonical label order of y by the second
.loc, scaled by 100. -/
def crosstabResult (df : Table) (lmx lmy : LabelMap) (x y : String)
    (weights : List ℚ) : Crosstab :=
  ⟨lmx.map Prod.snd, lmy.map Prod.snd,
   (lmx.map Prod.snd).map (fun lx =>
     (lmy.map Prod.snd).map (fun ly =>
       cellValue (mappedRows df lmx lmy x y weights) lx ly))⟩

/-- The crosstab computation once both value-label dictionaries are
resolved: the length check of the weights column (ValueError inside
pd.crosstab), then the row reorder .loc (KeyError if a canonical x label
was never observed), then the column reorder .loc (KeyError likewise for
y), and on success the normalized reordered table. -/
def crosstabCore (df : Table) (lmx lmy : LabelMap) (x y : String)
    (weights : List ℚ) : Except CtErr Crosstab :=
  if weights.length = df.length then
    if ∀ l ∈ lmx.map Prod.snd,
        l ∈ (mappedRows df lmx lmy x y weights).map Prod.fst then
      if ∀ l ∈ lmy.map Prod.snd,
          l ∈ (mappedRows df lmx lmy x y weights).map (fun p => p.2.1) then
        .ok (crosstabResult df lmx lmy x y weights)
      else .error .keyErrorCol
    else .error .keyErrorRow
  else .error .valueError

/-- The quick_crosstab routine of the notebook.  Order of failure follows
Python evaluation: the two metadata dictionary lookups first (KeyError,
raised while the arguments of pd.crosstab are evaluated), then the core
computation. -/
def quick_crosstab (df : Table) (meta : Meta) (x y : String)
    (weights : List ℚ) : Except CtErr Crosstab :=
  match lookupMeta meta x with
  | none => .error (.keyErrorMeta x)
  | some lmx =>
    match lookupMeta meta y with
    | none => .error (.keyErrorMeta y)
    | some lmy => crosstabCore df lmx lmy x y weights

/-- Contribution of one output cell to a column sum: NaN cells are skipped
(count as 0), as pandas column sums skip NaN. -/
def FVal.toSum : FVal → ℚ
  | .val q => q
  | _ => 0

/-- Cell (i, j) of the output matrix. -/
def cellAt (ct : Crosstab) (i j : ℕ) : FVal :=
  ((ct.cells.getD i []).getD j .nan)

/-- Sum of column j of the output matrix, skipping NaN cells. -/
def colSum (ct : Crosstab) (j : ℕ) : ℚ :=
  (ct.cells.map (fun r => (r.getD j FVal.nan).toSum)).sum

/-! The example scenario of the spec: rows (x:1, y:"A", w:2),
(x:2, y:"A", w:2), (x:1, y:"B", w:5), label map x: 1 ↦ "Yes", 2 ↦ "No",
y mapped to itself. -/

/-- The example table. -/
def exTable : Table :=
  [[("x", Val.num 1), ("y", Val.str "A")],
   [("x", Val.num 2), ("y", Val.str "A")],
   [("x", Val.num 1), ("y", Val.str "B")]]

/-- The example value-label dictionary for column x. -/
def lmxEx : LabelMap := [(Val.num 1, "Yes"), (Val.num 2, "No")]

/-- The example value-label dictionary for column y (identity labels). -/
def lmyEx : LabelMap := [(Val.str "A", "A"), (Val.str "B", "B")]

/-- The example label metadata. -/
def exMeta : Meta := [("x", lmxEx), ("y", lmyEx)]

/-- The example weight vector. -/
def exWeights : List ℚ := [2, 2, 5]

/-- The contingency table the routine returns on the example. -/
def exCt : Crosstab :=
  ⟨["Yes", "No"], ["A", "B"],
   [[FVal.val 50, FVal.val 100], [FVal.val 50, FVal.nan]]⟩

/-- An example input whose column "B" has zero total weight: both of its
rows carry weight 0, so normalization divides that column by 0. -/
def exTable2 : Table :=
  [[("x", Val.num 1), ("y", Val.str "A")],
   [("x", Val.num 2), ("y", Val.str "A")],
   [("x", Val.num 1), ("y", Val.str "B")],
   [("x", Val.num 2), ("y", Val.str "B")]]

/-- Weights for the zero-weight-column example. -/
def exWeights2 : List ℚ := [1, 1, 0, 0]

/-- An example table in which the canonical x label "No" (code 2) is
observed in no row. -/
def exTable3 : Table :=
  [[("x", Val.num 1), ("y", Val.str "A")],
   [("x", Val.num 1), ("y", Val.str "B")]]

/-- Weights for the missing-label example. -/
def exWeights3 : List ℚ := [1, 1]

/-- A row whose x code 9 has no entry in the x label map. -/
def exRowUnmapped : Row := [("x", Val.num 9), ("y", Val.str "A")]

/-- The interpreter-level state surrounding a call of the routine: the
loaded frame, its label metadata, the weight column, and the results
bound so far by earlier cells. -/
structure NotebookState where
  df : Table
  meta : Meta
  weights : List ℚ
  history : List (Except CtErr Crosstab)

/-- One call of quick_crosstab from a notebook cell: computes the result
from the loaded data and appends it to the bound results; the data frame,
the metadata and the weight column are only read. -/
def runQuickCrosstab (s : NotebookState) (x y : String) :
    Except CtErr Crosstab × NotebookState :=
  (quick_crosstab s.df s.meta x y s.weights,
   ⟨s.df, s.meta, s.weights,
    s.history ++ [quick_crosstab s.df s.meta x y s.weights]⟩)

/-- The top-level names bound by the notebook cells before the final
cell: the imports of cell 1, the frames and metadata objects of cell 3,
the function definition of cell 5 and the bindings of cell 6 (the three
plotting cells bind no new name). -/
def notebookDefinedNames : List String :=
  ["pd", "pyreadstat", "np", "plt", "sns",
   "df15", "meta15", "df18", "meta18",
   "quick_crosstab", "demo", "ct15_whites", "ct15_blacks", "ct15_asians"]

/-- The error raised by loading an undefined Python name. -/
inductive EvalErr where
  | nameError : EvalErr
deriving DecidableEq, Repr

/-- Loading a plain name in Python: a bound name evaluates, an unbound
name raises NameError.  Loading the name before the attribute access is
the first step of evaluating the final cell's pt.quick_crosstab call. -/
def evalName (env : List String) (n : String) : Except EvalErr Unit :=
  if n ∈ env then .ok () else .error .nameError

/-- Equality of routine outcomes is decidable (for concrete evaluation). -/
instance : DecidableEq (Except CtErr Crosstab) := fun a b =>
  match a, b with
  | .ok u, .ok v =>
    if h : u = v then .isTrue (by rw [h]) else .isFalse (by simp [h])
  | .error u, .error v =>
    if h : u = v then .isTrue (by rw [h]) else .isFalse (by simp [h])
  | .ok _, .error _ => .isFalse (by simp)
  | .error _, .ok _ => .isFalse (by simp)

/-! Helper lemmas about the embedding. -/

/-- A label produced by mapCode belongs to the canonical label sequence of
the dictionary it came from. -/
theorem mapCode_mem_labels {lm : LabelMap} {v : Option Val} {s : String}
    (h : mapCode lm v = some s) : s ∈ lm.map Prod.snd := by
  rcases v with _ | u
  · simp [mapCode] at h
  · rcases hf : lm.find? (fun p => decide (p.1 = u)) with _ | p
    · simp [mapCode, hf] at h
    · simp [mapCode, hf] at h
      subst h
      exact List.mem_map_of_mem Prod.snd (List.mem_of_find?_eq_some hf)

/-- Both labels of a mapped row lie in the respective canonical label
sequences. -/
theorem mappedRows_labels_mem {df : Table} {lmx lmy : LabelMap} {x y : String}
    {weights : List ℚ} {p : String × String × ℚ}
    (hp : p ∈ mappedRows df lmx lmy x y weights) :
    p.1 ∈ lmx.map Prod.snd ∧ p.2.1 ∈ lmy.map Prod.snd := by
  simp only [mappedRows, List.mem_filterMap] at hp
  obtain ⟨⟨r, w⟩, _, hmatch⟩ := hp
  rcases hmx : mapCode lmx (rowLookup r x) with _ | lx <;>
    rcases hmy : mapCode lmy (rowLookup r y) with _ | ly <;>
      rw [hmx, hmy] at hmatch
  · simp at hmatch
  · simp at hmatch
  · simp at hmatch
  · simp only [Option.some.injEq] at hmatch
    subst hmatch
    exact ⟨mapCode_mem_labels hmx, mapCode_mem_labels hmy⟩

/-- The weight of a mapped row is one of the input weights. -/
theorem mappedRows_weight_mem {df : Table} {lmx lmy : LabelMap} {x y : String}
    {weights : List ℚ} {p : String × String × ℚ}
    (hp : p ∈ mappedRows df lmx lmy x y weights) : p.2.2 ∈ weights := by
  simp only [mappedRows, List.mem_filterMap] at hp
  obtain ⟨⟨r, w⟩, hrw, hmatch⟩ := hp
  rcases hmx : mapCode lmx (rowLookup r x) with _ | lx <;>
    rcases hmy : mapCode lmy (rowLookup r y) with _ | ly <;>
      rw [hmx, hmy] at hmatch
  · simp at hmatch
  · simp at hmatch
  · simp at hmatch
  · simp only [Option.some.injEq] at hmatch
    subst hmatch
    exact (List.of_mem_zip hrw).2

/-- Mapped rows carry nonnegative weights when the weight vector is
nonnegative. -/
theorem mappedRows_weight_nonneg {df : Table} {lmx lmy : LabelMap}
    {x y : String} {weights : List ℚ} {p : String × String × ℚ}
    (hw : ∀ u ∈ weights, 0 ≤ u)
    (hp : p ∈ mappedRows df lmx lmy x y weights) : 0 ≤ p.2.2 :=
  hw _ (mappedRows_weight_mem hp)

/-- Every cell weight in cell (lx, ly) also occurs among the weights of
column ly. -/
theorem cellWeights_subset_colWeights {mr : List (String × String × ℚ)}
    {lx ly : String} {q : ℚ} (hq : q ∈ cellWeights mr lx ly) :
    q ∈ colWeights mr ly := by
  simp only [cellWeights, List.mem_filterMap] at hq
  obtain ⟨p, hp, hpq⟩ := hq
  by_cases hc : p.1 = lx ∧ p.2.1 = ly
  · rw [if_pos hc] at hpq
    simp only [Option.some.injEq] at hpq
    simp only [colWeights, List.mem_filterMap]
    exact ⟨p, hp, by rw [if_pos hc.2, hpq]⟩
  · rw [if_neg hc] at hpq
    exact absurd hpq (by simp)

/-- Weights of column ly are weights of mapped rows. -/
theorem colWeights_mem {mr : List (String × String × ℚ)} {ly : String}
    {q : ℚ} (hq : q ∈ colWeights mr ly) : ∃ p ∈ mr, p.2.2 = q := by
  simp only [colWeights, List.mem_filterMap] at hq
  obtain ⟨p, hp, hpq⟩ := hq
  by_cases hc : p.2.1 = ly
  · rw [if_pos hc] at hpq
    simp only [Option.some.injEq] at hpq
    exact ⟨p, hp, hpq⟩
  · rw [if_neg hc] at hpq
    exact absurd hpq (by simp)

/-- A list of nonnegative rationals with zero sum is identically zero. -/
theorem eq_zero_of_nonneg_sum_zero {l : List ℚ} (hpos : ∀ u ∈ l, 0 ≤ u)
    (hsum : l.sum = 0) : ∀ u ∈ l, u = 0 := by
  induction l with
  | nil => intro u hu; exact absurd hu (List.not_mem_nil u)
  | cons a t ih =>
    rw [List.sum_cons] at hsum
    have ha : 0 ≤ a := hpos a (List.mem_cons_self a t)
    have ht : 0 ≤ t.sum := List.sum_nonneg (fun u hu => hpos u (List.mem_cons_of_mem a hu))
    have ha0 : a = 0 := le_antisymm (by linarith) ha
    intro u hu
    rcases List.mem_cons.1 hu with rfl | hu
    · exact ha0
    · exact ih (fun v hv => hpos v (List.mem_cons_of_mem a hv))
        (by linarith [ha0 ▸ hsum]) u hu

/-- Cell weight sum over the head and tail of the mapped row list. -/
theorem cellWeights_cons_sum (q : String × String × ℚ)
    (t : List (String × String × ℚ)) (lx ly : String) :
    (cellWeights (q :: t) lx ly).sum
      = (if q.1 = lx ∧ q.2.1 = ly then q.2.2 else 0)
        + (cellWeights t lx ly).sum := by
  by_cases hc : q.1 = lx ∧ q.2.1 = ly
  · simp [cellWeights, List.filterMap_cons, hc]
  · simp [cellWeights, List.filterMap_cons, hc]

/-- Column weight over the head and tail of the mapped row list. -/
theorem colWeight_cons (q : String × String × ℚ)
    (t : List (String × String × ℚ)) (ly : String) :
    colWeight (q :: t) ly
      = (if q.2.1 = ly then q.2.2 else 0) + colWeight t ly := by
  by_cases hc : q.2.1 = ly
  · simp [colWeight, colWeights, List.filterMap_cons, hc]
  · simp [colWeight, colWeights, List.filterMap_cons, hc]

/-- Summing the indicator of one fixed label over a duplicate-free label
list that contains it yields the indicated weight. -/
theorem sum_ite_eq_of_mem (L : List String) (a : String) (w : ℚ)
    (hnd : L.Nodup) (ha : a ∈ L) :
    (L.map (fun lb => if a = lb then w else 0)).sum = w := by
  induction L with
  | nil => exact absurd ha (List.not_mem_nil a)
  | cons b t ih =>
    rw [List.map_cons, List.sum_cons]
    by_cases hab : a = b
    · rw [if_pos hab]
      have hat : a ∉ t := by rw [hab]; exact (List.nodup_cons.1 hnd).1
      have ht : (t.map (fun lb => if a = lb then w else 0)).sum = 0 := by
        apply List.sum_eq_zero
        intro u hu
        obtain ⟨lb, hlb, hlbu⟩ := List.mem_map.1 hu
        rw [← hlbu, if_neg (fun he => hat (by rw [he]; exact hlb))]
      rw [ht, add_zero]
    · rw [if_neg hab, zero_add]
      exact ih (List.nodup_cons.1 hnd).2
        (List.mem_cons.1 ha |>.resolve_left hab)

/-- Distributing the column weight of ly over a duplicate-free list of row
labels covering every mapped row of that column. -/
theorem sum_cellWeights_eq_colWeight (mr : List (String × String × ℚ))
    (L : List String) (ly : String) (hnd : L.Nodup)
    (hcov : ∀ p ∈ mr, p.2.1 = ly → p.1 ∈ L) :
    (L.map (fun lx => (cellWeights mr lx ly).sum)).sum = colWeight mr ly := by
  induction mr with
  | nil =>
    have : ∀ lx ∈ L, (cellWeights ([] : List (String × String × ℚ)) lx ly).sum = 0 := by
      intro lx _
      simp [cellWeights]
    rw [List.map_congr_left this]
    simp [colWeight, colWeights]
  | cons q t ih =>
    have hstep : ∀ lx ∈ L, (cellWeights (q :: t) lx ly).sum
        = (if q.1 = lx ∧ q.2.1 = ly then q.2.2 else 0) + (cellWeights t lx ly).sum :=
      fun lx _ => cellWeights_cons_sum q t lx ly
    rw [List.map_congr_left hstep, List.sum_map_add, colWeight_cons,
      ih (fun p hp => hcov p (List.mem_cons_of_mem q hp))]
    congr 1
    by_cases hqy : q.2.1 = ly
    · rw [if_pos hqy]
      have : ∀ lx ∈ L, (if q.1 = lx ∧ q.2.1 = ly then q.2.2 else 0)
          = (if q.1 = lx then q.2.2 else 0) := by
        intro lx _
        by_cases hql : q.1 = lx
        · rw [if_pos ⟨hql, hqy⟩, if_pos hql]
        · rw [if_neg (fun hand => hql hand.1), if_neg hql]
      rw [List.map_congr_left this]
      exact sum_ite_eq_of_mem L q.1 q.2.2 hnd
        (hcov q (List.mem_cons_self q t) hqy)
    · rw [if_neg hqy]
      apply List.sum_eq_zero
      intro u hu
      obtain ⟨lx, _, hlxu⟩ := List.mem_map.1 hu
      rw [← hlxu, if_neg (fun hand => hqy hand.2)]

/-- With nonnegative weights, the cell of a zero-total-weight column is
NaN: with no contributing row the aggregation already left NaN there, and
otherwise the numerator is forced to 0 and 0/0 is NaN. -/
theorem cellValue_nan_of_colWeight_zero {mr : List (String × String × ℚ)}
    (hmr : ∀ p ∈ mr, 0 ≤ p.2.2) (lx ly : String)
    (h0 : colWeight mr ly = 0) : cellValue mr lx ly = FVal.nan := by
  unfold cellValue
  by_cases he : (cellWeights mr lx ly).isEmpty
  · rw [if_pos he]
  · have hcolnn : ∀ u ∈ colWeights mr ly, 0 ≤ u := by
      intro u hu
      obtain ⟨p, hp, hpu⟩ := colWeights_mem hu
      exact hpu ▸ hmr p hp
    have hallzero : ∀ u ∈ colWeights mr ly, u = 0 :=
      eq_zero_of_nonneg_sum_zero hcolnn h0
    have hsum : (cellWeights mr lx ly).sum = 0 :=
      List.sum_eq_zero (fun u hu => hallzero u (cellWeights_subset_colWeights hu))
    rw [if_neg he, if_pos h0, if_pos hsum]

/-- When the column total is nonzero, the sum contribution of a cell is
its weighted share: NaN cells (no contributing row) contribute 0, exactly
the share of their empty weight list. -/
theorem cellValue_toSum_of_colWeight_ne_zero {mr : List (String × String × ℚ)}
    {ly : String} (hcs : colWeight mr ly ≠ 0) (lx : String) :
    (cellValue mr lx ly).toSum
      = 100 * (cellWeights mr lx ly).sum / colWeight mr ly := by
  unfold cellValue
  by_cases he : (cellWeights mr lx ly).isEmpty
  · rw [if_pos he]
    rw [List.isEmpty_iff] at he
    rw [he]
    simp [FVal.toSum]
  · rw [if_neg he, if_neg hcs]
    rfl

/-- Resolving the two dictionary lookups reduces the routine to its core
computation. -/
theorem quick_crosstab_eq_core {df : Table} {meta : Meta} {x y : String}
    {weights : List ℚ} {lmx lmy : LabelMap}
    (hx : lookupMeta meta x = some lmx) (hy : lookupMeta meta y = some lmy) :
    quick_crosstab df meta x y weights = crosstabCore df lmx lmy x y weights := by
  unfold quick_crosstab
  rw [hx, hy]

/-- Success path of the routine: both metadata lookups succeed, the
weights column has the length of the frame, and both .loc reorders find
every requested label. -/
theorem quick_crosstab_eq_ok {df : Table} {meta : Meta} {x y : String}
    {weights : List ℚ} {lmx lmy : LabelMap}
    (hx : lookupMeta meta x = some lmx) (hy : lookupMeta meta y = some lmy)
    (hlen : weights.length = df.length)
    (hcx : ∀ l ∈ lmx.map Prod.snd,
      l ∈ (mappedRows df lmx lmy x y weights).map Prod.fst)
    (hcy : ∀ l ∈ lmy.map Prod.snd,
      l ∈ (mappedRows df lmx lmy x y weights).map (fun p => p.2.1)) :
    quick_crosstab df meta x y weights
      = Except.ok (crosstabResult df lmx lmy x y weights) := by
  rw [quick_crosstab_eq_core hx hy]
  unfold crosstabCore
  rw [if_pos hlen, if_pos hcx, if_pos hcy]

/-- Inversion of the success path: a returned table determines that every
check passed and identifies the table. -/
theorem quick_crosstab_ok_inv {df : Table} {meta : Meta} {x y : String}
    {weights : List ℚ} {lmx lmy : LabelMap} {ct : Crosstab}
    (hx : lookupMeta meta x = some lmx) (hy : lookupMeta meta y = some lmy)
    (hok : quick_crosstab df meta x y weights = Except.ok ct) :
    weights.length = df.length ∧
    (∀ l ∈ lmx.map Prod.snd,
      l ∈ (mappedRows df lmx lmy x y weights).map Prod.fst) ∧
    (∀ l ∈ lmy.map Prod.snd,
      l ∈ (mappedRows df lmx lmy x y weights).map (fun p => p.2.1)) ∧
    ct = crosstabResult df lmx lmy x y weights := by
  rw [quick_crosstab_eq_core hx hy] at hok
  unfold crosstabCore at hok
  by_cases hlen : weights.length = df.length
  · rw [if_pos hlen] at hok
    by_cases hcx : ∀ l ∈ lmx.map Prod.snd,
        l ∈ (mappedRows df lmx lmy x y weights).map Prod.fst
    · rw [if_pos hcx] at hok
      by_cases hcy : ∀ l ∈ lmy.map Prod.snd,
          l ∈ (mappedRows df lmx lmy x y weights).map (fun p => p.2.1)
      · rw [if_pos hcy] at hok
        exact ⟨hlen, hcx, hcy, (Except.ok.inj hok).symm⟩
      · rw [if_neg hcy] at hok
        exact absurd hok (by simp)
    · rw [if_neg hcx] at hok
      exact absurd hok (by simp)
  · rw [if_neg hlen] at hok
    exact absurd hok (by simp)

/-- getD at an index inside the list is the indexed element. -/
theorem getD_lt {α : Type} (l : List α) (d : α) {n : ℕ} (h : n < l.length) :
    l.getD n d = l[n] := by
  rw [List.getD_eq_getElem?_getD, List.getElem?_eq_getElem h, Option.getD_some]

/-- Row and column label lists of the success table. -/
theorem crosstabResult_labels (df : Table) (lmx lmy : LabelMap)
    (x y : String) (weights : List ℚ) :
    (crosstabResult df lmx lmy x y weights).rowLabels = lmx.map Prod.snd ∧
    (crosstabResult df lmx lmy x y weights).colLabels = lmy.map Prod.snd :=
  ⟨rfl, rfl⟩

/-- Cell (i, j) of the success table is the normalized cell of the i-th
canonical x label and the j-th canonical y label. -/
theorem crosstabResult_cellAt {df : Table} {lmx lmy : LabelMap}
    {x y : String} {weights : List ℚ} {i j : ℕ}
    (hi : i < lmx.length) (hj : j < lmy.length) :
    cellAt (crosstabResult df lmx lmy x y weights) i j
      = cellValue (mappedRows df lmx lmy x y weights)
          ((lmx.map Prod.snd).getD i "") ((lmy.map Prod.snd).getD j "") := by
  have hi1 : i < (lmx.map Prod.snd).length := by simpa using hi
  have hj1 : j < (lmy.map Prod.snd).length := by simpa using hj
  have hi2 : i < ((lmx.map Prod.snd).map (fun lx =>
      (lmy.map Prod.snd).map (fun ly =>
        cellValue (mappedRows df lmx lmy x y weights) lx ly))).length := by
    simpa using hi
  simp only [cellAt, crosstabResult]
  rw [getD_lt _ _ hi2, List.getElem_map]
  have hj2 : j < ((lmy.map Prod.snd).map (fun ly =>
      cellValue (mappedRows df lmx lmy x y weights)
        (lmx.map Prod.snd)[i] ly)).length := by
    simpa using hj
  rw [getD_lt _ _ hj2, List.getElem_map]
  rw [getD_lt _ _ hi1, getD_lt _ _ hj1]

/-- The j-th column sum of the success table is the sum over the canonical
x labels of the cell contributions at the j-th canonical y label. -/
theorem crosstabResult_colSum {df : Table} {lmx lmy : LabelMap}
    {x y : String} {weights : List ℚ} {j : ℕ} (hj : j < lmy.length) :
    colSum (crosstabResult df lmx lmy x y weights) j
      = ((lmx.map Prod.snd).map (fun lx =>
          (cellValue (mappedRows df lmx lmy x y weights) lx
            ((lmy.map Prod.snd).getD j "")).toSum)).sum := by
  have hj1 : j < (lmy.map Prod.snd).length := by simpa using hj
  simp only [colSum, crosstabResult, List.map_map]
  apply congrArg List.sum
  apply List.map_congr_left
  intro lx _
  simp only [Function.comp_apply]
  have hj2 : j < (lmy.map ((fun ly =>
      cellValue (mappedRows df lmx lmy x y weights) lx.2 ly) ∘ Prod.snd)).length := by
    simpa using hj
  rw [getD_lt _ _ hj2, List.getElem_map, getD_lt _ _ hj1, List.getElem_map]
  rfl

/-- With nonnegative weights, a zero-total-weight column of the success
table consists of NaN cells only. -/
theorem crosstabResult_nan_of_colWeight_zero {df : Table} {lmx lmy : LabelMap}
    {x y : String} {weights : List ℚ} (hw : ∀ u ∈ weights, 0 ≤ u) {j : ℕ}
    (hj : j < (crosstabResult df lmx lmy x y weights).colLabels.length)
    (h0 : colWeight (mappedRows df lmx lmy x y weights)
      ((crosstabResult df lmx lmy x y weights).colLabels.getD j "") = 0)
    {i : ℕ}
    (hi : i < (crosstabResult df lmx lmy x y weights).rowLabels.length) :
    cellAt (crosstabResult df lmx lmy x y weights) i j = FVal.nan := by
  have hjy : j < lmy.length := by simpa [crosstabResult] using hj
  have hix : i < lmx.length := by simpa [crosstabResult] using hi
  rw [crosstabResult_cellAt hix hjy]
  exact cellValue_nan_of_colWeight_zero
    (fun p hp => mappedRows_weight_nonneg hw hp) _ _ h0

/-! The claims. -/

/-- Claim C2: on every successful call the row labels of the returned
table are exactly the canonical label sequence of the x dictionary, in
its order, and the column labels exactly the canonical label sequence of
the y dictionary. -/
theorem C2_label_order {df : Table} {meta : Meta} {x y : String}
    {weights : List ℚ} {lmx lmy : LabelMap} {ct : Crosstab}
    (hx : lookupMeta meta x = some lmx) (hy : lookupMeta meta y = some lmy)
    (hok : quick_crosstab df meta x y weights = Except.ok ct) :
    ct.rowLabels = lmx.map Prod.snd ∧ ct.colLabels = lmy.map Prod.snd := by
  obtain ⟨-, -, -, hct⟩ := quick_crosstab_ok_inv hx hy hok
  rw [hct]
  exact ⟨rfl, rfl⟩

/-- Witness for C2 at the example input. -/
theorem C2_label_order_witness :
    lookupMeta exMeta "x" = some [(Val.num 1, "Yes"), (Val.num 2, "No")] ∧
    lookupMeta exMeta "y" = some [(Val.str "A", "A"), (Val.str "B", "B")] ∧
    quick_crosstab exTable exMeta "x" "y" exWeights = Except.ok exCt ∧
    (exCt.rowLabels = [(Val.num 1, "Yes"), (Val.num 2, "No")].map Prod.snd ∧
     exCt.colLabels = [(Val.str "A", "A"), (Val.str "B", "B")].map Prod.snd) :=
  have hx : lookupMeta exMeta "x"
      = some [(Val.num 1, "Yes"), (Val.num 2, "No")] := by
    with_unfolding_all rfl
  have hy : lookupMeta exMeta "y"
      = some [(Val.str "A", "A"), (Val.str "B", "B")] := by
    with_unfolding_all rfl
  have hok : quick_crosstab exTable exMeta "x" "y" exWeights
      = Except.ok exCt := by
    with_unfolding_all rfl
  ⟨hx, hy, hok, C2_label_order hx hy hok⟩

/-- Claim C4: on the example input of the spec the routine returns the
table whose column "A" has Yes=50 and No=50 and whose column "B" has
Yes=100, and the ("No","B") cell, for which no input row exists, is
present in the table as NaN rather than the "No" row being dropped. -/
theorem C4_example_scenario :
    quick_crosstab exTable exMeta "x" "y" exWeights = Except.ok exCt ∧
    exCt.rowLabels = ["Yes", "No"] ∧ exCt.colLabels = ["A", "B"] ∧
    cellAt exCt 0 0 = FVal.val 50 ∧ cellAt exCt 1 0 = FVal.val 50 ∧
    cellAt exCt 0 1 = FVal.val 100 ∧ cellAt exCt 1 1 = FVal.nan :=
  ⟨by with_unfolding_all rfl, rfl, rfl, rfl, rfl, rfl, rfl⟩

/-- Claim C7: the routine is deterministic and idempotent: its result is
a function of the data frame, metadata, column names and weights alone,
and rerunning it on the state produced by a previous identical call
returns the identical output table. -/
theorem C7_idempotent (s : NotebookState) (x y : String) :
    (runQuickCrosstab s x y).1 = quick_crosstab s.df s.meta x y s.weights ∧
    (runQuickCrosstab ((runQuickCrosstab s x y).2) x y).1
      = (runQuickCrosstab s x y).1 :=
  ⟨rfl, rfl⟩

/-- Claim C8: a call leaves the data frame, the label metadata and the
weight vector unchanged, and its output does not depend on the results of
earlier calls recorded in the state. -/
theorem C8_no_shared_state (s t : NotebookState) (x y : String)
    (hdf : t.df = s.df) (hmeta : t.meta = s.meta)
    (hweights : t.weights = s.weights) :
    (runQuickCrosstab s x y).2.df = s.df ∧
    (runQuickCrosstab s x y).2.meta = s.meta ∧
    (runQuickCrosstab s x y).2.weights = s.weights ∧
    (runQuickCrosstab t x y).1 = (runQuickCrosstab s x y).1 := by
  refine ⟨rfl, rfl, rfl, ?_⟩
  simp only [runQuickCrosstab, hdf, hmeta, hweights]

/-- Witness for C8: two states with the same data but different call
histories. -/
theorem C8_no_shared_state_witness :
    (runQuickCrosstab ⟨exTable, exMeta, exWeights, []⟩ "x" "y").2.df
      = exTable ∧
    (runQuickCrosstab ⟨exTable, exMeta, exWeights, []⟩ "x" "y").2.meta
      = exMeta ∧
    (runQuickCrosstab ⟨exTable, exMeta, exWeights, []⟩ "x" "y").2.weights
      = exWeights ∧
    (runQuickCrosstab
        ⟨exTable, exMeta, exWeights, [Except.error CtErr.valueError]⟩
        "x" "y").1
      = (runQuickCrosstab ⟨exTable, exMeta, exWeights, []⟩ "x" "y").1 :=
  C8_no_shared_state ⟨exTable, exMeta, exWeights, []⟩
    ⟨exTable, exMeta, exWeights, [Except.error CtErr.valueError]⟩
    "x" "y" rfl rfl rfl

/-- Claim C9: no cell of the notebook binds the name pt, so evaluating
the final cell's assignment to ct18_voting raises NameError at the load
of pt instead of producing a contingency table. -/
theorem C9_undefined_name :
    evalName notebookDefinedNames "pt" = Except.error EvalErr.nameError := by
  rfl

/-- Claim C10: a weight vector whose length differs from the number of
rows of the frame makes the routine raise; it never returns a table built
from silently truncated or padded weights. -/
theorem C10_length_mismatch_error (df : Table) (meta : Meta) (x y : String)
    (weights : List ℚ) (hne : weights.length ≠ df.length) :
    ∀ ct : Crosstab, quick_crosstab df meta x y weights ≠ Except.ok ct := by
  intro ct
  rcases hlx : lookupMeta meta x with _ | lmx
  · unfold quick_crosstab
    rw [hlx]
    simp
  · rcases hly : lookupMeta meta y with _ | lmy
    · unfold quick_crosstab
      rw [hlx, hly]
      simp
    · rw [quick_crosstab_eq_core hlx hly]
      unfold crosstabCore
      rw [if_neg hne]
      simp

/-- Witness for C10: one weight for three rows. -/
theorem C10_length_mismatch_error_witness :
    ([(1 : ℚ)].length ≠ exTable.length) ∧
    quick_crosstab exTable exMeta "x" "y" [(1 : ℚ)] ≠ Except.ok exCt :=
  ⟨by decide,
   C10_length_mismatch_error exTable exMeta "x" "y" [(1 : ℚ)] (by decide) exCt⟩

/-- Claim C3: if some canonical x (or y) label is observed in no
aggregated row, the reorder step raises KeyError: the call returns a hard
error rather than a table silently omitting the label. -/
theorem C3_missing_label_error {df : Table} {meta : Meta} {x y : String}
    {weights : List ℚ} {lmx lmy : LabelMap}
    (hx : lookupMeta meta x = some lmx) (hy : lookupMeta meta y = some lmy)
    (hlen : weights.length = df.length)
    (hmiss :
      (∃ l ∈ lmx.map Prod.snd,
        l ∉ (mappedRows df lmx lmy x y weights).map Prod.fst) ∨
      (∃ l ∈ lmy.map Prod.snd,
        l ∉ (mappedRows df lmx lmy x y weights).map (fun p => p.2.1))) :
    quick_crosstab df meta x y weights = Except.error CtErr.keyErrorRow ∨
    quick_crosstab df meta x y weights = Except.error CtErr.keyErrorCol := by
  rw [quick_crosstab_eq_core hx hy]
  unfold crosstabCore
  rw [if_pos hlen]
  by_cases hcx : ∀ l ∈ lmx.map Prod.snd,
      l ∈ (mappedRows df lmx lmy x y weights).map Prod.fst
  · rw [if_pos hcx]
    have hcy : ¬ ∀ l ∈ lmy.map Prod.snd,
        l ∈ (mappedRows df lmx lmy x y weights).map (fun p => p.2.1) := by
      rcases hmiss with ⟨l, hl, hnl⟩ | ⟨l, hl, hnl⟩
      · exact absurd (hcx l hl) hnl
      · exact fun hall => hnl (hall l hl)
    rw [if_neg hcy]
    exact Or.inr rfl
  · rw [if_neg hcx]
    exact Or.inl rfl

/-- Witness for C3: the canonical x label "No" is observed in no row of
the missing-label example. -/
theorem C3_missing_label_error_witness :
    (exWeights3.length = exTable3.length) ∧
    ("No" ∈ [(Val.num 1, "Yes"), (Val.num 2, "No")].map Prod.snd ∧
      "No" ∉ (mappedRows exTable3 [(Val.num 1, "Yes"), (Val.num 2, "No")]
        [(Val.str "A", "A"), (Val.str "B", "B")] "x" "y" exWeights3).map
          Prod.fst) ∧
    (quick_crosstab exTable3 exMeta "x" "y" exWeights3
        = Except.error CtErr.keyErrorRow ∨
      quick_crosstab exTable3 exMeta "x" "y" exWeights3
        = Except.error CtErr.keyErrorCol) :=
  have hx : lookupMeta exMeta "x"
      = some [(Val.num 1, "Yes"), (Val.num 2, "No")] := by
    with_unfolding_all rfl
  have hy : lookupMeta exMeta "y"
      = some [(Val.str "A", "A"), (Val.str "B", "B")] := by
    with_unfolding_all rfl
  have hlen : exWeights3.length = exTable3.length := by rfl
  have hno : "No" ∈ [(Val.num 1, "Yes"), (Val.num 2, "No")].map Prod.snd ∧
      "No" ∉ (mappedRows exTable3 [(Val.num 1, "Yes"), (Val.num 2, "No")]
        [(Val.str "A", "A"), (Val.str "B", "B")] "x" "y" exWeights3).map
          Prod.fst := by
    with_unfolding_all decide
  ⟨hlen, hno, C3_missing_label_error hx hy hlen (Or.inl ⟨"No", hno.1, hno.2⟩)⟩

/-- Claim C1: on a successful call with valid inputs (distinct canonical
x labels, nonnegative weights), a column of the returned table with
nonzero total aggregate weight sums to exactly 100, and a column with
zero total aggregate weight consists entirely of NaN cells. -/
theorem C1_column_sums {df : Table} {meta : Meta} {x y : String}
    {weights : List ℚ} {lmx lmy : LabelMap} {ct : Crosstab}
    (hx : lookupMeta meta x = some lmx) (hy : lookupMeta meta y = some lmy)
    (hnd : (lmx.map Prod.snd).Nodup)
    (hw : ∀ u ∈ weights, 0 ≤ u)
    (hok : quick_crosstab df meta x y weights = Except.ok ct)
    (j : ℕ) (hj : j < ct.colLabels.length) :
    (colWeight (mappedRows df lmx lmy x y weights) (ct.colLabels.getD j "") = 0 →
      ∀ i < ct.rowLabels.length, cellAt ct i j = FVal.nan) ∧
    (colWeight (mappedRows df lmx lmy x y weights) (ct.colLabels.getD j "") ≠ 0 →
      colSum ct j = 100) := by
  obtain ⟨-, -, -, hct⟩ := quick_crosstab_ok_inv hx hy hok
  subst hct
  have hjy : j < lmy.length := by simpa [crosstabResult] using hj
  constructor
  · intro h0 i hi
    exact crosstabResult_nan_of_colWeight_zero hw hj h0 hi
  · intro hne
    rw [crosstabResult_colSum hjy]
    have hne2 : colWeight (mappedRows df lmx lmy x y weights)
        ((lmy.map Prod.snd).getD j "") ≠ 0 := hne
    have hcell : ∀ lx ∈ lmx.map Prod.snd,
        (cellValue (mappedRows df lmx lmy x y weights) lx
          ((lmy.map Prod.snd).getD j "")).toSum
        = (100 / colWeight (mappedRows df lmx lmy x y weights)
              ((lmy.map Prod.snd).getD j ""))
          * (cellWeights (mappedRows df lmx lmy x y weights) lx
              ((lmy.map Prod.snd).getD j "")).sum := by
      intro lx _
      rw [cellValue_toSum_of_colWeight_ne_zero hne2 lx]
      rw [div_eq_mul_inv, div_eq_mul_inv]
      ring
    rw [List.map_congr_left hcell, List.sum_map_mul_left,
      sum_cellWeights_eq_colWeight _ _ _ hnd
        (fun p hp _ => (mappedRows_labels_mem hp).1)]
    rw [div_mul_cancel₀ _ hne2]

/-- Witness for C1 at the example input, column "A" of total weight 4. -/
theorem C1_column_sums_witness :
    ((lmxEx.map Prod.snd).Nodup ∧ (∀ u ∈ exWeights, 0 ≤ u)) ∧
    colSum exCt 0 = 100 :=
  have hx : lookupMeta exMeta "x" = some lmxEx := by with_unfolding_all rfl
  have hy : lookupMeta exMeta "y" = some lmyEx := by with_unfolding_all rfl
  have hnd : (lmxEx.map Prod.snd).Nodup := by with_unfolding_all decide
  have hw : ∀ u ∈ exWeights, 0 ≤ u := by with_unfolding_all decide
  have hok : quick_crosstab exTable exMeta "x" "y" exWeights
      = Except.ok exCt := by with_unfolding_all rfl
  ⟨⟨hnd, hw⟩,
   (C1_column_sums hx hy hnd hw hok 0 (by with_unfolding_all decide)).2
     (by with_unfolding_all decide)⟩

/-- Claim C5: a row whose raw x or y code has no dictionary entry is
dropped by the aggregation, contributing its weight to no cell, and with
nonnegative weights the total weight aggregated into the result is at
most the total input weight. -/
theorem C5_unmapped_rows_dropped :
    (∀ (df : Table) (lmx lmy : LabelMap) (x y : String) (r : Row) (w : ℚ)
        (weights : List ℚ),
      mapCode lmx (rowLookup r x) = none ∨ mapCode lmy (rowLookup r y) = none →
      mappedRows (r :: df) lmx lmy x y (w :: weights)
        = mappedRows df lmx lmy x y weights) ∧
    (∀ (df : Table) (lmx lmy : LabelMap) (x y : String) (weights : List ℚ),
      (∀ u ∈ weights, 0 ≤ u) →
      ((mappedRows df lmx lmy x y weights).map (fun p => p.2.2)).sum
        ≤ weights.sum) := by
  constructor
  · intro df lmx lmy x y r w weights hnone
    rcases hx2 : mapCode lmx (rowLookup r x) with _ | lx <;>
      rcases hy2 : mapCode lmy (rowLookup r y) with _ | ly <;>
      simp only [mappedRows, List.zip_cons_cons, List.filterMap_cons, hx2, hy2]
    rcases hnone with h | h
    · rw [hx2] at h
      exact absurd h (by simp)
    · rw [hy2] at h
      exact absurd h (by simp)
  · intro df lmx lmy x y weights hw
    induction df generalizing weights with
    | nil =>
      simpa [mappedRows] using List.sum_nonneg hw
    | cons r t ih =>
      rcases weights with _ | ⟨w, ws⟩
      · simp [mappedRows]
      · have hw0 : 0 ≤ w := hw w (List.mem_cons_self w ws)
        have hws : ∀ u ∈ ws, 0 ≤ u :=
          fun u hu => hw u (List.mem_cons_of_mem w hu)
        have hih := ih ws hws
        rcases hx2 : mapCode lmx (rowLookup r x) with _ | lx <;>
          rcases hy2 : mapCode lmy (rowLookup r y) with _ | ly <;>
          simp only [mappedRows, List.zip_cons_cons, List.filterMap_cons,
            hx2, hy2, List.map_cons, List.sum_cons] <;>
          simp only [mappedRows] at hih
        · linarith
        · linarith
        · linarith
        · linarith

/-- Witness for C5: the unmapped row with code 9 is dropped, and the
aggregated weight of the example is bounded by the input weight. -/
theorem C5_unmapped_rows_dropped_witness :
    (mapCode lmxEx (rowLookup exRowUnmapped "x") = none ∧
      mappedRows (exRowUnmapped :: exTable) lmxEx lmyEx "x" "y"
          ((7 : ℚ) :: exWeights)
        = mappedRows exTable lmxEx lmyEx "x" "y" exWeights) ∧
    ((∀ u ∈ exWeights, 0 ≤ u) ∧
      ((mappedRows exTable lmxEx lmyEx "x" "y" exWeights).map
          (fun p => p.2.2)).sum
        ≤ exWeights.sum) :=
  have hnone : mapCode lmxEx (rowLookup exRowUnmapped "x") = none := by
    with_unfolding_all rfl
  have hw : ∀ u ∈ exWeights, 0 ≤ u := by with_unfolding_all decide
  ⟨⟨hnone,
    C5_unmapped_rows_dropped.1 exTable lmxEx lmyEx "x" "y" exRowUnmapped 7
      exWeights (Or.inl hnone)⟩,
   ⟨hw, C5_unmapped_rows_dropped.2 exTable lmxEx lmyEx "x" "y" exWeights hw⟩⟩

/-- Claim C6: a column-factor value of zero total aggregate weight does
not make the routine raise: with the other preconditions in place the
call still returns a table, and every cell of such a column is NaN,
propagated unchanged for the caller to notice. -/
theorem C6_zero_weight_column_nan {df : Table} {meta : Meta} {x y : String}
    {weights : List ℚ} {lmx lmy : LabelMap}
    (hx : lookupMeta meta x = some lmx) (hy : lookupMeta meta y = some lmy)
    (hlen : weights.length = df.length)
    (hcx : ∀ l ∈ lmx.map Prod.snd,
      l ∈ (mappedRows df lmx lmy x y weights).map Prod.fst)
    (hcy : ∀ l ∈ lmy.map Prod.snd,
      l ∈ (mappedRows df lmx lmy x y weights).map (fun p => p.2.1))
    (hw : ∀ u ∈ weights, 0 ≤ u) :
    ∃ ct : Crosstab, quick_crosstab df meta x y weights = Except.ok ct ∧
      ∀ j < ct.colLabels.length,
        colWeight (mappedRows df lmx lmy x y weights)
            (ct.colLabels.getD j "") = 0 →
        ∀ i < ct.rowLabels.length, cellAt ct i j = FVal.nan := by
  refine ⟨crosstabResult df lmx lmy x y weights,
    quick_crosstab_eq_ok hx hy hlen hcx hcy, ?_⟩
  intro j hj h0 i hi
  exact crosstabResult_nan_of_colWeight_zero hw hj h0 hi

/-- Witness for C6: the zero-weight-column example, whose column "B" has
total weight 0. -/
theorem C6_zero_weight_column_nan_witness :
    (exWeights2.length = exTable2.length ∧ (∀ u ∈ exWeights2, 0 ≤ u) ∧
      colWeight (mappedRows exTable2 lmxEx lmyEx "x" "y" exWeights2) "B"
        = 0) ∧
    (∃ ct : Crosstab,
      quick_crosstab exTable2 exMeta "x" "y" exWeights2 = Except.ok ct ∧
      ∀ j < ct.colLabels.length,
        colWeight (mappedRows exTable2 lmxEx lmyEx "x" "y" exWeights2)
            (ct.colLabels.getD j "") = 0 →
        ∀ i < ct.rowLabels.length, cellAt ct i j = FVal.nan) :=
  have hx : lookupMeta exMeta "x" = some lmxEx := by with_unfolding_all rfl
  have hy : lookupMeta exMeta "y" = some lmyEx := by with_unfolding_all rfl
  have hlen : exWeights2.length = exTable2.length := by rfl
  have hcx : ∀ l ∈ lmxEx.map Prod.snd,
      l ∈ (mappedRows exTable2 lmxEx lmyEx "x" "y" exWeights2).map
        Prod.fst := by
    with_unfolding_all decide
  have hcy : ∀ l ∈ lmyEx.map Prod.snd,
      l ∈ (mappedRows exTable2 lmxEx lmyEx "x" "y" exWeights2).map
        (fun p => p.2.1) := by
    with_unfolding_all decide
  have hw : ∀ u ∈ exWeights2, 0 ≤ u := by with_unfolding_all decide
  have h0 : colWeight (mappedRows exTable2 lmxEx lmyEx "x" "y" exWeights2) "B"
      = 0 := by
    with_unfolding_all decide
  ⟨⟨hlen, hw, h0⟩, C6_zero_weight_column_nan hx hy hlen hcx hcy hw⟩

end PewCrosstab
